import Mathlib

/-!
# Verification of the intercepting logger (`src/index.js`)

This file gives a shallow embedding of the single-component logger:
a JavaScript value model sufficient for the configuration object, the
constructor's validation sequence (source lines 37-58), the interception
installer loop (lines 60-98), and the installed wrapper's per-call
behavior (lines 68-95): pass-through to the captured original, argument
rendering, file-sink line production, bounded in-memory history, and
event broadcast.

External JavaScript builtins used by the source (`typeof`, truthiness,
`isNaN` number coercion, `String.prototype.trim`, number printing,
`Object.keys`, property access) are modelled explicitly below; numeric
string parsing covers plain decimal numerals and number printing covers
finite decimal expansions, which is the fragment the configuration
contract exercises.  `util.inspect` and user-supplied timestamp
functions are kept as parameters of the wrapper semantics (an `Env`),
since the source treats them as opaque callables.
-/

/-- Model of a JavaScript number: either `NaN` or a (finite) numeric
value, represented as a rational. -/
inductive JSNum where
  | nan
  | val (q : ℚ)
deriving DecidableEq

/-- Model of the JavaScript values that can appear in the configuration
object and in argument lists of intercepted calls. -/
inductive JSVal where
  | undefined
  | null
  | bool (b : Bool)
  | num (x : JSNum)
  | str (s : String)
  | arr (xs : List JSVal)
  | obj (fs : List (String × JSVal))
  | func (tag : Nat)

/-- JavaScript truthiness. -/
def truthy : JSVal → Bool
  | .undefined => false
  | .null => false
  | .bool b => b
  | .num .nan => false
  | .num (.val q) => q != 0
  | .str s => s != ""
  | .arr _ => true
  | .obj _ => true
  | .func _ => true

/-- JavaScript `typeof`. -/
def typeof : JSVal → String
  | .undefined => "undefined"
  | .null => "object"
  | .bool _ => "boolean"
  | .num _ => "number"
  | .str _ => "string"
  | .arr _ => "object"
  | .obj _ => "object"
  | .func _ => "function"

/-- First-match field lookup in an object's field list. -/
def getField : List (String × JSVal) → String → JSVal
  | [], _ => .undefined
  | p :: ps, k => if p.1 = k then p.2 else getField ps k

/-- Property access `v[k]`: field lookup on objects, `undefined`
otherwise (the source only dereferences properties of values it has
checked to be truthy). -/
def JSVal.get : JSVal → String → JSVal
  | .obj fs, k => getField fs k
  | _, _ => .undefined

/-- Model of `Object.keys` (and `for ... in` enumeration): field names of
an object, index strings for arrays and strings, empty otherwise. -/
def objKeys : JSVal → List String
  | .obj fs => fs.map (·.1)
  | .arr xs => (List.range xs.length).map toString
  | .str s => (List.range s.length).map toString
  | _ => []

/-- Model of `Array.isArray`. -/
def isArray : JSVal → Bool
  | .arr _ => true
  | _ => false

/-- Elements of an array value (the source iterates `types` only after
`Array.isArray(types)` has been checked). -/
def elems : JSVal → List JSVal
  | .arr xs => xs
  | _ => []

/-- Characters treated as whitespace by the model of
`String.prototype.trim` (the ASCII fragment of the JS definition). -/
def wsChar (c : Char) : Bool :=
  c = ' ' || c = '\t' || c = '\n' || c = '\r'

/-- Model of `String.prototype.trim`: strip trailing then leading
whitespace. -/
def jsTrim (s : String) : String :=
  ⟨List.dropWhile wsChar ((List.dropWhile wsChar s.data.reverse).reverse)⟩

/-- Decimal digits of the fractional part `rem/d`, with fuel; stops when
the remainder is exhausted. Models JS number printing on finite decimal
expansions. -/
def fracDigits : Nat → Nat → Nat → List Char
  | 0, _, _ => []
  | _ + 1, 0, _ => []
  | fuel + 1, rem, d => Char.ofNat (48 + (rem * 10) / d) :: fracDigits fuel ((rem * 10) % d) d

/-- Model of JavaScript number-to-string conversion. -/
def jsNumToString : JSNum → String
  | .nan => "NaN"
  | .val q =>
    let sign := if q < 0 then "-" else ""
    let n := q.num.natAbs
    let d := q.den
    if n % d = 0 then sign ++ toString (n / d)
    else sign ++ toString (n / d) ++ "." ++ ⟨fracDigits 20 (n % d) d⟩

mutual
/-- Model of JavaScript string coercion `String(v)` / `v + ""`. -/
def jsToString : JSVal → String
  | .undefined => "undefined"
  | .null => "null"
  | .bool b => cond b "true" "false"
  | .num x => jsNumToString x
  | .str s => s
  | .func _ => "function () \x7b \x7d"
  | .obj _ => "[object Object]"
  | .arr xs => arrJoin xs

/-- Model of `Array.prototype.toString`: elements joined by commas, with
`undefined` and `null` rendered as empty. -/
def arrJoin : List JSVal → String
  | [] => ""
  | [.undefined] => ""
  | [.null] => ""
  | [v] => jsToString v
  | .undefined :: vs => "," ++ arrJoin vs
  | .null :: vs => "," ++ arrJoin vs
  | v :: vs => jsToString v ++ "," ++ arrJoin vs
end

/-- Digit test for the numeric-string parser. -/
def isDigitCh (c : Char) : Bool := 48 ≤ c.toNat && c.toNat ≤ 57

/-- Value of a digit string. -/
def digitsToNat (l : List Char) : Nat :=
  l.foldl (fun n c => n * 10 + (c.toNat - 48)) 0

/-- Parse an unsigned decimal numeral `digits[.digits]` (fractions of the
JS grammar beyond plain decimal notation are out of this model). -/
def parseUnsigned (l : List Char) : Option ℚ :=
  let ip := l.takeWhile isDigitCh
  let rest := l.dropWhile isDigitCh
  match rest with
  | [] => if ip.isEmpty then none else some (digitsToNat ip)
  | '.' :: fr =>
    if fr.all isDigitCh && !(ip.isEmpty && fr.isEmpty) then
      some ((digitsToNat ip : ℚ) + (digitsToNat fr : ℚ) / ((10 : ℚ) ^ fr.length))
    else none
  | _ => none

/-- Model of JavaScript string-to-number coercion on plain decimal
numerals: trims whitespace, maps the empty string to `0`, otherwise
parses an optionally signed decimal numeral, `NaN` on failure. -/
def jsParseNumber (s : String) : JSNum :=
  match (jsTrim s).data with
  | [] => .val 0
  | '+' :: r => match parseUnsigned r with | some q => .val q | none => .nan
  | '-' :: r => match parseUnsigned r with | some q => .val (-q) | none => .nan
  | r => match parseUnsigned r with | some q => .val q | none => .nan

/-- Model of JavaScript `ToNumber` coercion (as invoked by `isNaN` and by
the numeric comparisons in the wrapper). -/
def toNumber : JSVal → JSNum
  | .undefined => .nan
  | .null => .val 0
  | .bool b => .val (cond b 1 0)
  | .num x => x
  | .str s => jsParseNumber s
  | .arr xs => jsParseNumber (arrJoin xs)
  | .obj _ => .nan
  | .func _ => .nan

/-- Test for `NaN` on the model of JS numbers. -/
def JSNum.isNaN : JSNum → Bool
  | .nan => true
  | .val _ => false

/-- The constructor's raw argument after destructuring
`{types, log} = {}` (source line 32). -/
structure RawConfig where
  types : JSVal
  log : JSVal

/-- The membership test `["log", "warn", "error", "debug"].includes(item)`
of source line 49 (strict equality against the four type strings). -/
def isValidTypeVal : JSVal → Bool
  | .str s => s == "log" || s == "warn" || s == "error" || s == "debug"
  | _ => false

/-- The membership test `["file", "memory", "emit"].includes(key)` of
source line 55. -/
def isValidSinkKey (k : String) : Bool :=
  k = "file" || k = "memory" || k = "emit"

/-- The loop of source lines 48-52: first element of `types` that is not
a valid type, if any. -/
def findInvalidType : List JSVal → Option JSVal
  | [] => none
  | v :: vs => if isValidTypeVal v then findInvalidType vs else some v

/-- The loop of source lines 54-58: first key of `log` that is not a
valid sink key, if any. -/
def findInvalidKey : List String → Option String
  | [] => none
  | k :: ks => if isValidSinkKey k then findInvalidKey ks else some k

/-- One validation step: `if (b) throw new Error(msg)`. -/
def check (b : Bool) (msg : String) : Except String Unit :=
  if b then .error msg else .ok ()

/-- Throw a message built from an offending value, if one was found. -/
def checkFound : Option α → (α → String) → Except String Unit
  | some a, msg => .error (msg a)
  | none, _ => .ok ()

/-- The validation sequence of the constructor, source lines 37-58, in
source order with the source's error messages.  Note that line 44 is
transcribed with the source's `&&` between `!log.file.dir` and
`typeof log.file.dir != "string"`. -/
def validate (cfg : RawConfig) : Except String Unit := do
  check (!truthy cfg.types) "Missing types"
  check (!truthy cfg.log) "Missing log"
  check (!isArray cfg.types) "types needs to be an array"
  check ((elems cfg.types).length == 0) "types are empty"
  check ((objKeys cfg.log).length == 0) "log is empty"
  check (truthy (cfg.log.get "file") && !truthy ((cfg.log.get "file").get "dir")
    && typeof ((cfg.log.get "file").get "dir") != "string") "Invalid dir"
  check (truthy (cfg.log.get "memory")
    && (toNumber ((cfg.log.get "memory").get "history")).isNaN) "Invalid memory history size"
  check (truthy (cfg.log.get "file") && truthy ((cfg.log.get "file").get "timestamp")
    && typeof ((cfg.log.get "file").get "timestamp") != "function") "Invalid file timestamp"
  checkFound (findInvalidType (elems cfg.types))
    (fun v => "Invalid type " ++ jsToString v ++ ", must be one of log, warn, error, debug")
  checkFound (findInvalidKey (objKeys cfg.log))
    (fun k => "Invalid log " ++ k ++ ", must be one of file, memory, emit")

/-- A console output function value: either one of the host's native
output functions (distinguished by an identity tag), or a wrapper
installed by the constructor, closing over the function it replaced and
the `log` sink configuration (source lines 65, 68). -/
inductive OutFn where
  | base (id : Nat)
  | wrapped (orig : OutFn) (logCfg : JSVal)

/-- A `console[type]` slot: the function value together with the
`modified` interception marker stamped onto it (source lines 61, 97; a
native function carries no marker, i.e. `false`). -/
structure ConsoleFn where
  fn : OutFn
  modified : Bool

/-- The four process-wide output function slots of `console`. -/
structure Console where
  c_log : ConsoleFn
  c_warn : ConsoleFn
  c_error : ConsoleFn
  c_debug : ConsoleFn

/-- Read `console[k]`.  The default arm is unreachable for validated
type names. -/
def Console.get (c : Console) (k : String) : ConsoleFn :=
  if k = "log" then c.c_log
  else if k = "warn" then c.c_warn
  else if k = "error" then c.c_error
  else if k = "debug" then c.c_debug
  else ⟨.base 0, false⟩

/-- Write `console[k]`.  The default arm is unreachable for validated
type names. -/
def Console.set (c : Console) (k : String) (f : ConsoleFn) : Console :=
  if k = "log" then { c with c_log := f }
  else if k = "warn" then { c with c_warn := f }
  else if k = "error" then { c with c_error := f }
  else if k = "debug" then { c with c_debug := f }
  else c

/-- One retained history record `{time, message}` (source line 87). -/
structure Entry where
  time : Nat
  message : String
deriving DecidableEq

/-- The instance's `this.logs` mapping: type name to history sequence,
in insertion order. -/
def Logs := List (String × List Entry)

/-- JavaScript object-property update: overwrite in place if the key is
present, append otherwise. -/
def setKey : List (String × List Entry) → String → List Entry → List (String × List Entry)
  | [], k, v => [(k, v)]
  | p :: ps, k, v => if p.1 = k then (k, v) :: ps else p :: setKey ps k v

/-- The double-attachment error message of source line 62. -/
def dblMsg (k : String) : String :=
  "Attempted to attach logger to console." ++ k ++ " multiple times"

/-- The interception installer loop, source lines 60-98.  For each
element of `types`: fail on an already-marked slot, otherwise capture
the current function, initialize this type's history to `[]`, and
install the marked wrapper.  A failure aborts immediately with the state
reached so far (no rollback). -/
def installLoop (logCfg : JSVal) : List JSVal → Console → Logs → Except String Unit × Console × Logs
  | [], c, lg => (.ok (), c, lg)
  | it :: rest, c, lg =>
    let key := jsToString it
    if (c.get key).modified then
      (.error (dblMsg key), c, lg)
    else
      let o := c.get key
      let lg' := setKey lg key []
      let c' := c.set key ⟨.wrapped o.fn logCfg, true⟩
      installLoop logCfg rest c' lg'

/-- The whole constructor (source lines 32-99): `this.logs` starts
empty, the validation sequence runs first, and only then does the
installer loop touch the console.  Returns the thrown error or `ok`,
the final console state, and the final `this.logs`. -/
def construct (cfg : RawConfig) (c0 : Console) : Except String Unit × Console × Logs :=
  match validate cfg with
  | .error e => (.error e, c0, [])
  | .ok _ => installLoop cfg.log (elems cfg.types) c0 []

/-- The ambient time of one wrapper invocation: the `new Date()` values
observed during the call (its clock value and its UTC calendar
fields, which the source reads via `getUTCFullYear`, `getUTCMonth`,
`getUTCDate`). -/
structure JSDate where
  ms : Nat
  year : Nat
  month0 : Nat
  day : Nat
deriving DecidableEq

/-- Interpretation of the opaque callables the wrapper may invoke:
`util.inspect` and a user-configured timestamp function (applied to the
current date). -/
structure Env where
  inspect : JSVal → String
  tsApply : JSVal → JSDate → String

/-- Rendering of one argument (source line 74): structured inspection
for values of `typeof` "object" or "function", plain string coercion
otherwise. -/
def renderOne (env : Env) (v : JSVal) : String :=
  if typeof v == "object" || typeof v == "function" then env.inspect v else jsToString v

/-- The rendering loop of source lines 71-75: fold appending each
rendered argument plus a trailing space. -/
def renderLoop (env : Env) (args : List JSVal) : String :=
  args.foldl (fun s a => s ++ renderOne env a ++ " ") ""

/-- The rendered message (source line 77): the loop's result, trimmed. -/
def renderArgs (env : Env) (args : List JSVal) : String :=
  jsTrim (renderLoop env args)

/-- The memory-sink update of source lines 86-91: push the entry, then
if the length reaches or exceeds the history bound, splice off the
front down to the bound.  The bound is the raw `history` value coerced
to a number; a `NaN` bound never triggers the splice (every comparison
with `NaN` is false). -/
def memAppend (hv : JSNum) (lg : List Entry) (e : Entry) : List Entry :=
  match hv with
  | .nan => lg ++ [e]
  | .val q =>
    if q ≤ (((lg ++ [e]).length : ℕ) : ℚ) then
      (lg ++ [e]).drop (Rat.floor ((((lg ++ [e]).length : ℕ) : ℚ) - q)).toNat
    else lg ++ [e]

/-- Observable external actions of one wrapper invocation, in order. -/
inductive Effect where
  | origCall (orig : OutFn) (args : List JSVal)
  | fileAppend (dir : JSVal) (fname : String) (line : String)
  | emitEvent (name : String) (payload : String)

/-- One invocation of the installed wrapper (source lines 68-95) for
type `item` with captured original `orig`, current history `lg`,
ambient date `d` and argument list `args`.  Returns the ordered effect
list and the new history sequence: the pass-through call is first and
unconditional; then the file line is produced if the file sink is
configured; then the history is updated if the memory sink is
configured; then the event is emitted if the emit sink is configured. -/
def wrapperCall (env : Env) (logCfg : JSVal) (item : String) (orig : OutFn)
    (lg : List Entry) (d : JSDate) (args : List JSVal) : List Effect × List Entry :=
  let str := renderArgs env args
  let fileFx :=
    if truthy (logCfg.get "file") then
      let fileCfg := logCfg.get "file"
      let fname := item ++ "_" ++ toString d.year ++ "_" ++ toString (d.month0 + 1)
        ++ "_" ++ toString d.day ++ ".log"
      let pre := if truthy (fileCfg.get "timestamp") then env.tsApply (fileCfg.get "timestamp") d
        else ""
      [Effect.fileAppend (fileCfg.get "dir") fname (pre ++ str ++ "\n")]
    else []
  let lg' :=
    if truthy (logCfg.get "memory") then
      memAppend (toNumber ((logCfg.get "memory").get "history")) lg ⟨d.ms, str⟩
    else lg
  let emitFx := if truthy (logCfg.get "emit") then [Effect.emitEvent item str] else []
  (Effect.origCall orig args :: (fileFx ++ emitFx), lg')

/-- A sequence of invocations of the installed wrapper, threading the
history sequence. -/
def runCalls (env : Env) (logCfg : JSVal) (item : String) (orig : OutFn)
    (lg : List Entry) (calls : List (JSDate × List JSVal)) : List Entry :=
  calls.foldl (fun l c => (wrapperCall env logCfg item orig l c.1 c.2).2) lg

/-- The last `n` elements of a list (the specification's "last
`min(N, H)` messages"). -/
def lastN (n : Nat) (l : List α) : List α :=
  l.drop (l.length - n)

/-- The specification's "concatenation of the rendered arguments
separated by single spaces". -/
def sepBySpace : List String → String
  | [] => ""
  | [r] => r
  | r :: rs => r ++ " " ++ sepBySpace rs

/-- The function `memAppend` specialized to a natural-number history bound. -/
def memAppendN (H : Nat) (lg : List Entry) (e : Entry) : List Entry :=
  if H ≤ (lg ++ [e]).length then (lg ++ [e]).drop ((lg ++ [e]).length - H) else lg ++ [e]

/-- The four valid console slot names. -/
def validKeyName (k : String) : Prop :=
  k = "log" ∨ k = "warn" ∨ k = "error" ∨ k = "debug"

/-- A console whose four output functions are the host's native,
unmarked functions. -/
def freshConsole : Console :=
  ⟨⟨.base 1, false⟩, ⟨.base 2, false⟩, ⟨.base 3, false⟩, ⟨.base 4, false⟩⟩

/-- A trivial interpretation of the opaque callables, for concrete runs. -/
def w1Env : Env := ⟨fun _ => "", fun _ _ => ""⟩

/-- A memory-sink-only configuration object with history bound 2. -/
def w1Cfg : JSVal := .obj [("memory", .obj [("history", .num (.val 2))])]

/-- Three concrete invocations. -/
def w1Calls : List (JSDate × List JSVal) :=
  [(⟨0, 2020, 0, 1⟩, [.str "a"]), (⟨1, 2020, 0, 1⟩, [.str "b"]),
   (⟨2, 2020, 0, 1⟩, [.str "c"])]

/-- A valid configuration selecting only the `log` type, emit sink only. -/
def w2Cfg : RawConfig := ⟨.arr [.str "log"], .obj [("emit", .bool true)]⟩

/-- A console whose `log` slot already carries a marked wrapper (as left
behind by a first logger instance). -/
def w2Console : Console :=
  ⟨⟨.wrapped (.base 1) (.obj [("emit", .bool true)]), true⟩,
   ⟨.base 2, false⟩, ⟨.base 3, false⟩, ⟨.base 4, false⟩⟩

/-- A configuration whose `types` lists the same kind twice. -/
def c3Cfg : RawConfig := ⟨.arr [.str "log", .str "log"], .obj [("emit", .bool true)]⟩

/-- A configuration whose file sink has `dir` equal to the empty string. -/
def c4Cfg : RawConfig := ⟨.arr [.str "log"], .obj [("file", .obj [("dir", .str "")])]⟩

/-- A configuration whose file sink has a truthy non-string `dir`. -/
def c4CfgNum : RawConfig :=
  ⟨.arr [.str "log"], .obj [("file", .obj [("dir", .num (.val 5))])]⟩

/-- A configuration whose memory sink has `history = 0`. -/
def c5Cfg : RawConfig :=
  ⟨.arr [.str "log"], .obj [("memory", .obj [("history", .num (.val 0))])]⟩

/-- A valid configuration without a memory sink (emit only). -/
def c9Cfg : RawConfig := ⟨.arr [.str "log"], .obj [("emit", .bool true)]⟩

/-- A sink configuration object with file and emit sinks but no memory
sink. -/
def w10Cfg : JSVal :=
  .obj [("emit", .bool true), ("file", .obj [("dir", .str "./")])]

/-! ## Rendering lemmas -/

theorem jsTrim_append_space (s : String) : jsTrim (s ++ " ") = jsTrim s := by
  have hd : (s ++ " ").data = s.data ++ [' '] := String.data_append s " "
  simp [jsTrim, hd, List.reverse_append, List.dropWhile_cons, wsChar]

theorem renderLoop_acc (env : Env) (args : List JSVal) (s : String) :
    args.foldl (fun t a => t ++ renderOne env a ++ " ") s
      = s ++ args.foldl (fun t a => t ++ renderOne env a ++ " ") "" := by
  induction args generalizing s with
  | nil => simp [String.append_empty]
  | cons a as ih =>
    simp only [List.foldl_cons]
    rw [ih (s ++ renderOne env a ++ " "), ih ("" ++ renderOne env a ++ " ")]
    simp [String.append_assoc, String.empty_append]

theorem renderLoop_eq_sep (env : Env) :
    ∀ args : List JSVal, args ≠ [] →
      renderLoop env args = sepBySpace (args.map (renderOne env)) ++ " "
  | [], h => absurd rfl h
  | [a], _ => by
    simp [renderLoop, sepBySpace, String.empty_append]
  | a :: b :: rest, _ => by
    have ih := renderLoop_eq_sep env (b :: rest) (by simp)
    have h1 : renderLoop env (a :: b :: rest)
        = ("" ++ renderOne env a ++ " ") ++ renderLoop env (b :: rest) :=
      renderLoop_acc env (b :: rest) ("" ++ renderOne env a ++ " ")
    rw [h1, ih]
    simp [sepBySpace, String.append_assoc, String.empty_append]

theorem renderArgs_eq_sep (env : Env) (args : List JSVal) :
    renderArgs env args = jsTrim (sepBySpace (args.map (renderOne env))) := by
  cases args with
  | nil => rfl
  | cons a as =>
    rw [renderArgs, renderLoop_eq_sep env (a :: as) (by simp), jsTrim_append_space]

/-! ## Memory-history lemmas -/

theorem rat_floor_eq_int_floor (q : ℚ) : Rat.floor q = ⌊q⌋ := by
  rw [Rat.floor_def', Rat.floor_def]

theorem memAppend_natCast (H : Nat) (lg : List Entry) (e : Entry) :
    memAppend (.val (H : ℚ)) lg e = memAppendN H lg e := by
  have h2 : (Rat.floor ((((lg ++ [e]).length : ℕ) : ℚ) - (H : ℚ))).toNat
      = (lg ++ [e]).length - H := by
    rw [rat_floor_eq_int_floor, Int.floor_sub_nat, Int.floor_natCast]
    exact Int.toNat_sub _ _
  simp only [memAppend, memAppendN, h2, Nat.cast_le]

theorem memAppendN_lastN (H : Nat) (l : List Entry) (e : Entry) :
    memAppendN H (lastN H l) e = lastN H (l ++ [e]) := by
  unfold memAppendN lastN
  rcases le_or_lt H l.length with hH | hH
  · have hlen : (l.drop (l.length - H)).length = H := by
      rw [List.length_drop]; omega
    have hcond : H ≤ (l.drop (l.length - H) ++ [e]).length := by
      simp only [List.length_append, List.length_singleton, hlen]; omega
    rw [if_pos hcond]
    have hlen2 : (l.drop (l.length - H) ++ [e]).length - H = 1 := by
      simp only [List.length_append, List.length_singleton, hlen]; omega
    rw [hlen2]
    rcases Nat.eq_zero_or_pos H with h0 | h1
    · subst h0
      simp [List.drop_length]
    · rw [List.drop_append_eq_append_drop, List.drop_drop,
        List.drop_append_eq_append_drop]
      have e1 : (1 : ℕ) - (l.drop (l.length - H)).length = 0 := by
        rw [hlen]; omega
      have e2 : (l ++ [e]).length - H - l.length = 0 := by
        simp only [List.length_append, List.length_singleton]; omega
      have e3 : l.length - H + 1 = (l ++ [e]).length - H := by
        simp only [List.length_append, List.length_singleton]; omega
      rw [e1, e2, e3]
  · have hA : l.length - H = 0 := by omega
    rw [hA, List.drop_zero]
    have hB : (l ++ [e]).length - H = 0 := by
      simp only [List.length_append, List.length_singleton]; omega
    rw [hB, List.drop_zero]
    split <;> rfl

theorem foldl_memAppendN (H : Nat) :
    ∀ (es : List Entry) (l : List Entry),
      es.foldl (memAppendN H) (lastN H l) = lastN H (l ++ es)
  | [], l => by simp
  | e :: es, l => by
    rw [List.foldl_cons, memAppendN_lastN, foldl_memAppendN H es (l ++ [e])]
    simp

theorem foldl_memAppendN_nil (H : Nat) (es : List Entry) :
    es.foldl (memAppendN H) [] = lastN H es := by
  have h := foldl_memAppendN H es []
  have h0 : lastN H ([] : List Entry) = [] := by simp [lastN]
  rw [h0] at h
  simpa using h

theorem lastN_length (n : Nat) (l : List α) :
    (lastN n l).length = min l.length n := by
  simp only [lastN, List.length_drop]; omega

theorem lastN_map (f : α → β) (n : Nat) (l : List α) :
    (lastN n l).map f = lastN n (l.map f) := by
  simp [lastN, List.map_drop]

/-! ## Wrapper-invocation lemmas -/

theorem wrapperCall_logs_memory (env : Env) (logCfg : JSVal) (item : String) (orig : OutFn)
    (H : Nat) (l : List Entry) (d : JSDate) (args : List JSVal)
    (hmem : truthy (logCfg.get "memory") = true)
    (hh : (logCfg.get "memory").get "history" = .num (.val (H : ℚ))) :
    (wrapperCall env logCfg item orig l d args).2
      = memAppendN H l ⟨d.ms, renderArgs env args⟩ := by
  simp only [wrapperCall, hmem, hh, if_true]
  exact memAppend_natCast H l _

theorem runCalls_memory (env : Env) (logCfg : JSVal) (item : String) (orig : OutFn)
    (H : Nat) (calls : List (JSDate × List JSVal))
    (hmem : truthy (logCfg.get "memory") = true)
    (hh : (logCfg.get "memory").get "history" = .num (.val (H : ℚ))) :
    runCalls env logCfg item orig [] calls
      = lastN H (calls.map fun c => (⟨c.1.ms, renderArgs env c.2⟩ : Entry)) := by
  suffices hgen : ∀ l0 : List Entry,
      calls.foldl (fun l c => (wrapperCall env logCfg item orig l c.1 c.2).2) l0
        = (calls.map fun c => (⟨c.1.ms, renderArgs env c.2⟩ : Entry)).foldl (memAppendN H) l0 by
    rw [runCalls, hgen []]
    exact foldl_memAppendN_nil H _
  intro l0
  induction calls generalizing l0 with
  | nil => rfl
  | cons c cs ih =>
    rw [List.foldl_cons, List.map_cons, List.foldl_cons,
      wrapperCall_logs_memory env logCfg item orig H l0 c.1 c.2 hmem hh]
    exact ih _

theorem wrapperCall_logs_no_memory (env : Env) (logCfg : JSVal) (item : String) (orig : OutFn)
    (l : List Entry) (d : JSDate) (args : List JSVal)
    (hmem : truthy (logCfg.get "memory") = false) :
    (wrapperCall env logCfg item orig l d args).2 = l := by
  simp only [wrapperCall, hmem, Bool.false_eq_true, if_false]

theorem runCalls_no_memory (env : Env) (logCfg : JSVal) (item : String) (orig : OutFn)
    (calls : List (JSDate × List JSVal)) (lg : List Entry)
    (hmem : truthy (logCfg.get "memory") = false) :
    runCalls env logCfg item orig lg calls = lg := by
  induction calls generalizing lg with
  | nil => rfl
  | cons c cs ih =>
    rw [runCalls, List.foldl_cons,
      wrapperCall_logs_no_memory env logCfg item orig lg c.1 c.2 hmem]
    exact ih lg

/-! ## Console-state lemmas -/

theorem isValidTypeVal_key {v : JSVal} (h : isValidTypeVal v = true) :
    validKeyName (jsToString v) := by
  cases v <;> simp [isValidTypeVal] at h
  rename_i s
  simp only [jsToString, validKeyName]
  tauto

theorem Console.get_set_self (c : Console) (f : ConsoleFn) {k : String}
    (hk : validKeyName k) : (c.set k f).get k = f := by
  rcases hk with rfl | rfl | rfl | rfl <;> simp [Console.set, Console.get]

theorem Console.get_set_ne (c : Console) (f : ConsoleFn) {k k' : String}
    (hk : validKeyName k) (hk' : validKeyName k') (hne : k ≠ k') :
    (c.set k f).get k' = c.get k' := by
  rcases hk with rfl | rfl | rfl | rfl <;> rcases hk' with rfl | rfl | rfl | rfl <;>
    first
      | exact absurd rfl hne
      | simp [Console.set, Console.get]

/-! ## Validation-extraction lemmas -/

theorem seq_ok_left {x : Except String Unit} {f : Unit → Except String Unit}
    (h : (x >>= f) = .ok ()) : x = .ok () := by
  cases x with
  | error e => simp [Bind.bind, Except.bind] at h
  | ok u => cases u; rfl

theorem seq_ok_right {x : Except String Unit} {f : Unit → Except String Unit}
    (h : (x >>= f) = .ok ()) : f () = .ok () := by
  cases x with
  | error e => simp [Bind.bind, Except.bind] at h
  | ok u => cases u; simpa [Bind.bind, Except.bind] using h

theorem check_ok {b : Bool} {msg : String} (h : check b msg = .ok ()) : b = false := by
  cases b
  · rfl
  · simp [check] at h

theorem checkFound_ok {o : Option α} {msg : α → String}
    (h : checkFound o msg = .ok ()) : o = none := by
  cases o
  · rfl
  · simp [checkFound] at h

theorem findInvalidType_none : ∀ {l : List JSVal}, findInvalidType l = none →
    ∀ v ∈ l, isValidTypeVal v = true
  | [], _, v, hv => absurd hv (List.not_mem_nil v)
  | w :: ws, h, v, hv => by
    cases hw : isValidTypeVal w with
    | false => rw [findInvalidType, if_neg (by simp [hw])] at h; cases h
    | true =>
      rw [findInvalidType, if_pos hw] at h
      rcases List.mem_cons.mp hv with rfl | hv'
      · exact hw
      · exact findInvalidType_none h v hv'

theorem validate_ok_findInvalidType {cfg : RawConfig} (h : validate cfg = .ok ()) :
    findInvalidType (elems cfg.types) = none := by
  unfold validate at h
  replace h := seq_ok_right h
  replace h := seq_ok_right h
  replace h := seq_ok_right h
  replace h := seq_ok_right h
  replace h := seq_ok_right h
  replace h := seq_ok_right h
  replace h := seq_ok_right h
  replace h := seq_ok_right h
  exact checkFound_ok (seq_ok_left h)

theorem validate_ok_types {cfg : RawConfig} (h : validate cfg = .ok ()) :
    ∀ v ∈ elems cfg.types, isValidTypeVal v = true :=
  findInvalidType_none (validate_ok_findInvalidType h)

/-! ## Installer-loop lemmas -/

theorem installLoop_cons_modified (logCfg it : JSVal) (rest : List JSVal)
    (c : Console) (lg : Logs) (hm : (c.get (jsToString it)).modified = true) :
    installLoop logCfg (it :: rest) c lg = (.error (dblMsg (jsToString it)), c, lg) := by
  simp [installLoop, hm]

theorem installLoop_cons_not_modified (logCfg it : JSVal) (rest : List JSVal)
    (c : Console) (lg : Logs) (hm : (c.get (jsToString it)).modified = false) :
    installLoop logCfg (it :: rest) c lg
      = installLoop logCfg rest
          (c.set (jsToString it) ⟨.wrapped (c.get (jsToString it)).fn logCfg, true⟩)
          (setKey lg (jsToString it) []) := by
  simp [installLoop, hm]

theorem installLoop_modified_stops (logCfg : JSVal) :
    ∀ (items : List JSVal) (c : Console) (lg : Logs) (t : JSVal),
      (∀ v ∈ items, isValidTypeVal v = true) →
      t ∈ items →
      (c.get (jsToString t)).modified = true →
      (∃ k, (installLoop logCfg items c lg).1 = .error (dblMsg k))
        ∧ ((installLoop logCfg items c lg).2.1).get (jsToString t) = c.get (jsToString t)
  | [], _, _, t, _, ht, _ => absurd ht (List.not_mem_nil t)
  | it :: rest, c, lg, t, hval, ht, hmod => by
    cases hm : (c.get (jsToString it)).modified with
    | true =>
      rw [installLoop_cons_modified logCfg it rest c lg hm]
      exact ⟨⟨jsToString it, rfl⟩, rfl⟩
    | false =>
      have hkt : validKeyName (jsToString t) :=
        isValidTypeVal_key (hval t ht)
      have hki : validKeyName (jsToString it) :=
        isValidTypeVal_key (hval it (List.mem_cons_self it rest))
      have hne : jsToString it ≠ jsToString t := by
        intro hEq
        rw [hEq, hmod] at hm
        cases hm
      have htr : t ∈ rest := by
        rcases List.mem_cons.mp ht with rfl | h
        · rw [hmod] at hm; cases hm
        · exact h
      have hpres :
          ((c.set (jsToString it) ⟨.wrapped (c.get (jsToString it)).fn logCfg, true⟩).get
            (jsToString t)) = c.get (jsToString t) :=
        Console.get_set_ne c _ hki hkt hne
      have ih := installLoop_modified_stops logCfg rest
        (c.set (jsToString it) ⟨.wrapped (c.get (jsToString it)).fn logCfg, true⟩)
        (setKey lg (jsToString it) []) t
        (fun v hv => hval v (List.mem_cons_of_mem _ hv)) htr (by rw [hpres]; exact hmod)
      rw [installLoop_cons_not_modified logCfg it rest c lg hm]
      exact ⟨ih.1, by rw [ih.2, hpres]⟩

theorem installLoop_dup (logCfg : JSVal) :
    ∀ (items : List JSVal) (c : Console) (lg : Logs),
      (∀ v ∈ items, isValidTypeVal v = true) →
      ((∃ v ∈ items, (c.get (jsToString v)).modified = true)
        ∨ ¬ (items.map jsToString).Nodup) →
      ∃ k, (installLoop logCfg items c lg).1 = .error (dblMsg k)
  | [], _, _, _, hbad => by
    rcases hbad with ⟨v, hv, _⟩ | hnd
    · exact absurd hv (List.not_mem_nil v)
    · exact absurd (by simp) hnd
  | it :: rest, c, lg, hval, hbad => by
    cases hm : (c.get (jsToString it)).modified with
    | true =>
      rw [installLoop_cons_modified logCfg it rest c lg hm]
      exact ⟨jsToString it, rfl⟩
    | false =>
      have hki : validKeyName (jsToString it) :=
        isValidTypeVal_key (hval it (List.mem_cons_self it rest))
      rw [installLoop_cons_not_modified logCfg it rest c lg hm]
      apply installLoop_dup logCfg rest _ _
        (fun v hv => hval v (List.mem_cons_of_mem _ hv))
      rcases hbad with ⟨v, hv, hvm⟩ | hnd
      · rcases List.mem_cons.mp hv with rfl | hv'
        · rw [hm] at hvm; cases hvm
        · by_cases he : jsToString v = jsToString it
          · left
            refine ⟨v, hv', ?_⟩
            rw [he, Console.get_set_self c _ hki]
          · left
            refine ⟨v, hv', ?_⟩
            rw [Console.get_set_ne c _ hki (isValidTypeVal_key
              (hval v (List.mem_cons_of_mem _ hv'))) (fun hEq => he hEq.symm)]
            exact hvm
      · rw [List.map_cons, List.nodup_cons] at hnd
        push_neg at hnd
        by_cases hB : (rest.map jsToString).Nodup
        · have hmem : jsToString it ∈ List.map jsToString rest :=
            not_not.mp fun hA => hnd hA hB
          obtain ⟨v, hv, hkey⟩ := List.mem_map.mp hmem
          left
          refine ⟨v, hv, ?_⟩
          rw [hkey, Console.get_set_self c _ hki]
        · right; exact hB

/-! ## Logs-mapping lemmas -/

theorem lookup_setKey_self (k : String) (v : List Entry) :
    ∀ lg : List (String × List Entry), (setKey lg k v).lookup k = some v
  | [] => by simp [setKey, List.lookup]
  | (k', v') :: ps => by
    by_cases h : k' = k
    · simp [setKey, h, List.lookup]
    · have hb : (k == k') = false := by
        simp only [beq_eq_false_iff_ne, ne_eq]
        exact fun hEq => h hEq.symm
      simp [setKey, h, List.lookup, hb, lookup_setKey_self k v ps]

theorem lookup_setKey_ne (k k' : String) (v : List Entry) (hne : k' ≠ k) :
    ∀ lg : List (String × List Entry), (setKey lg k v).lookup k' = lg.lookup k'
  | [] => by
    have hb : (k' == k) = false := by
      simp only [beq_eq_false_iff_ne, ne_eq]
      exact hne
    simp [setKey, List.lookup, hb]
  | (k0, v0) :: ps => by
    by_cases h : k0 = k
    · subst h
      have hb : (k' == k0) = false := by
        simp only [beq_eq_false_iff_ne, ne_eq]
        exact hne
      simp [setKey, List.lookup, hb]
    · simp only [setKey, h, if_false]
      by_cases h2 : k' = k0
      · subst h2
        simp [List.lookup]
      · have hb : (k' == k0) = false := by
          simp only [beq_eq_false_iff_ne, ne_eq]
          exact h2
        simp [List.lookup, hb, lookup_setKey_ne k k' v hne ps]

theorem lookup_setKey_isSome (lg : List (String × List Entry)) (k k' : String)
    (v : List Entry) (h : (lg.lookup k').isSome = true) :
    ((setKey lg k v).lookup k').isSome = true := by
  by_cases he : k' = k
  · subst he; rw [lookup_setKey_self]; rfl
  · rw [lookup_setKey_ne k k' v he]; exact h

theorem installLoop_lookup_isSome (logCfg : JSVal) :
    ∀ (items : List JSVal) (c : Console) (lg : Logs) (k : String),
      (lg.lookup k).isSome = true →
      (((installLoop logCfg items c lg).2.2).lookup k).isSome = true
  | [], _, _, _, h => h
  | it :: rest, c, lg, k, h => by
    cases hm : (c.get (jsToString it)).modified with
    | true => rw [installLoop_cons_modified logCfg it rest c lg hm]; exact h
    | false =>
      rw [installLoop_cons_not_modified logCfg it rest c lg hm]
      exact installLoop_lookup_isSome logCfg rest _ _ k
        (lookup_setKey_isSome lg (jsToString it) k [] h)

theorem installLoop_values_nil (logCfg : JSVal) :
    ∀ (items : List JSVal) (c : Console) (lg : Logs),
      (∀ k, lg.lookup k = none ∨ lg.lookup k = some []) →
      ∀ k, ((installLoop logCfg items c lg).2.2).lookup k = none
        ∨ ((installLoop logCfg items c lg).2.2).lookup k = some []
  | [], _, _, hinv, k => hinv k
  | it :: rest, c, lg, hinv, k => by
    cases hm : (c.get (jsToString it)).modified with
    | true => rw [installLoop_cons_modified logCfg it rest c lg hm]; exact hinv k
    | false =>
      rw [installLoop_cons_not_modified logCfg it rest c lg hm]
      apply installLoop_values_nil logCfg rest _ _
      intro k0
      by_cases he : k0 = jsToString it
      · subst he; right; exact lookup_setKey_self _ _ lg
      · rw [lookup_setKey_ne _ _ _ he]; exact hinv k0

theorem installLoop_mem_lookup (logCfg : JSVal) :
    ∀ (items : List JSVal) (c : Console) (lg : Logs),
      (installLoop logCfg items c lg).1 = .ok () →
      ∀ v ∈ items,
        (((installLoop logCfg items c lg).2.2).lookup (jsToString v)).isSome = true
  | [], _, _, _, v, hv => absurd hv (List.not_mem_nil v)
  | it :: rest, c, lg, hok, v, hv => by
    cases hm : (c.get (jsToString it)).modified with
    | true =>
      rw [installLoop_cons_modified logCfg it rest c lg hm] at hok
      cases hok
    | false =>
      rw [installLoop_cons_not_modified logCfg it rest c lg hm] at hok ⊢
      rcases List.mem_cons.mp hv with rfl | hv'
      · exact installLoop_lookup_isSome logCfg rest _ _ (jsToString v)
          (by rw [lookup_setKey_self]; rfl)
      · exact installLoop_mem_lookup logCfg rest _ _ hok v hv'

/-! ## Claim theorems -/

/-- C1: for every positive integer history bound `H` and every sequence
of invocations of an intercepted output function whose sink
configuration has the memory sink with `history = H`, after all `N`
calls the retained history consists of exactly the last `min(N, H)`
rendered messages in call order (`lastN H` of an `N`-element list has
length `min(N, H)`), its length is `min(N, H)`, and after any prefix of
the calls (i.e. after every append) its length never exceeds `H`. -/
theorem c1_memory_history_bound (H : Nat) (_hH : 1 ≤ H) (env : Env) (logCfg : JSVal)
    (item : String) (orig : OutFn) (calls : List (JSDate × List JSVal))
    (hmem : truthy (logCfg.get "memory") = true)
    (hh : (logCfg.get "memory").get "history" = .num (.val (H : ℚ))) :
    (runCalls env logCfg item orig [] calls).map Entry.message
        = lastN H (calls.map fun c => renderArgs env c.2)
      ∧ (runCalls env logCfg item orig [] calls).length = min calls.length H
      ∧ ∀ k, (runCalls env logCfg item orig [] (calls.take k)).length ≤ H := by
  refine ⟨?_, ?_, ?_⟩
  · rw [runCalls_memory env logCfg item orig H calls hmem hh, lastN_map, List.map_map]
    rfl
  · rw [runCalls_memory env logCfg item orig H calls hmem hh, lastN_length,
      List.length_map]
  · intro k
    rw [runCalls_memory env logCfg item orig H (calls.take k) hmem hh, lastN_length,
      List.length_map]
    omega

/-- Witness for C1: history bound 2, three concrete calls. -/
theorem c1_memory_history_bound_witness :
    (runCalls w1Env w1Cfg "log" (.base 1) [] w1Calls).map Entry.message
        = lastN 2 (w1Calls.map fun c => renderArgs w1Env c.2)
      ∧ (runCalls w1Env w1Cfg "log" (.base 1) [] w1Calls).length = min w1Calls.length 2
      ∧ ∀ k, (runCalls w1Env w1Cfg "log" (.base 1) [] (w1Calls.take k)).length ≤ 2 :=
  c1_memory_history_bound 2 (by decide) w1Env w1Cfg "log" (.base 1) w1Calls rfl rfl

/-- C2: if the console's output function for a selected type already
carries the interception marker, construction (with an otherwise valid
configuration) fails with a double-attachment error, and the
already-installed wrapper for that type is left exactly as it was. -/
theorem c2_double_attach (cfg : RawConfig) (c0 : Console) (t : JSVal)
    (hv : validate cfg = .ok ()) (ht : t ∈ elems cfg.types)
    (hmod : (c0.get (jsToString t)).modified = true) :
    (∃ k, (construct cfg c0).1 = .error (dblMsg k))
      ∧ ((construct cfg c0).2.1).get (jsToString t) = c0.get (jsToString t) := by
  have hc : construct cfg c0 = installLoop cfg.log (elems cfg.types) c0 [] := by
    simp only [construct, hv]
  rw [hc]
  exact installLoop_modified_stops cfg.log (elems cfg.types) c0 [] t
    (validate_ok_types hv) ht hmod

/-- Witness for C2: a second logger for `log` on a console whose `log`
slot is already wrapped and marked. -/
theorem c2_double_attach_witness :
    (∃ k, (construct w2Cfg w2Console).1 = .error (dblMsg k))
      ∧ ((construct w2Cfg w2Console).2.1).get (jsToString (.str "log"))
          = w2Console.get (jsToString (.str "log")) :=
  c2_double_attach w2Cfg w2Console (.str "log") rfl (List.mem_singleton.mpr rfl) rfl

/-- C3 counterexample: the claim says construction succeeds when `types`
contains duplicates, but `types = ["log", "log"]` on a fresh console
throws the double-attachment error at the second occurrence. -/
theorem c3_dup_types_counterexample :
    (construct c3Cfg freshConsole).1
      = .error "Attempted to attach logger to console.log multiple times" := rfl

/-- C3 (amended): duplicates in `types` are not rejected by the
validation sequence, but construction nonetheless fails: whenever the
validated `types` list maps to a key list with a repeat, the installer
loop throws a double-attachment error (at the repeated occurrence, or
earlier). -/
theorem c3_dup_types_amended (cfg : RawConfig) (c0 : Console)
    (hv : validate cfg = .ok ())
    (hdup : ¬ ((elems cfg.types).map jsToString).Nodup) :
    ∃ k, (construct cfg c0).1 = .error (dblMsg k) := by
  have hc : construct cfg c0 = installLoop cfg.log (elems cfg.types) c0 [] := by
    simp only [construct, hv]
  rw [hc]
  exact installLoop_dup cfg.log (elems cfg.types) c0 []
    (validate_ok_types hv) (Or.inr hdup)

/-- Witness for C3 (amended): `types = ["log", "log"]` passes validation
(discharged by `rfl`) and construction fails. -/
theorem c3_dup_types_amended_witness :
    ∃ k, (construct c3Cfg freshConsole).1 = .error (dblMsg k) :=
  c3_dup_types_amended c3Cfg freshConsole rfl (by decide)

/-- C4 (code-bug evidence): the line-44 guard
`log.file && !log.file.dir && typeof log.file.dir != "string"` uses `&&`
where the stated rule requires `||`, so a file sink with `dir = ""` (not
a non-empty string) passes validation and construction succeeds, and a
truthy non-string `dir = 5` passes validation as well. -/
theorem c4_invalid_dir_accepted :
    validate c4Cfg = .ok ()
      ∧ (construct c4Cfg freshConsole).1 = .ok ()
      ∧ validate c4CfgNum = .ok () :=
  ⟨rfl, rfl, rfl⟩

/-- C5 counterexample: the claim says the accepted `history` values are
the integers greater than 0, but `history = 0` (not an integer greater
than 0) passes validation and construction succeeds. -/
theorem c5_zero_history_counterexample :
    validate c5Cfg = .ok () ∧ (construct c5Cfg freshConsole).1 = .ok () :=
  ⟨rfl, rfl⟩

/-- C6: a configuration that fails validation makes construction throw
that validation error before any interception is installed: the console
is returned unchanged and no history mapping is created. -/
theorem c6_validation_before_install (cfg : RawConfig) (c0 : Console) (e : String)
    (hv : validate cfg = .error e) :
    construct cfg c0 = (.error e, c0, []) := by
  simp only [construct, hv]

/-- Witness for C6: the empty configuration fails with "Missing types"
and leaves the fresh console untouched. -/
theorem c6_validation_before_install_witness :
    construct ⟨.undefined, .undefined⟩ freshConsole
      = (.error "Missing types", freshConsole, []) :=
  c6_validation_before_install ⟨.undefined, .undefined⟩ freshConsole "Missing types" rfl

/-- C7: each invocation of the installed wrapper invokes the captured
original function with exactly the same arguments, as the first action
of its effect sequence, before any file append or event broadcast (and
unconditionally: no hypothesis on the sink configuration). -/
theorem c7_passthrough_first (env : Env) (logCfg : JSVal) (item : String)
    (orig : OutFn) (lg : List Entry) (d : JSDate) (args : List JSVal) :
    ∃ rest, (wrapperCall env logCfg item orig lg d args).1
      = .origCall orig args :: rest :=
  ⟨_, rfl⟩

/-- C8: the rendered message is the space-separated concatenation of
the per-argument renderings (structured inspection for object/function
values, plain coercion otherwise), trimmed; in particular rendering the
single string "hello" yields "hello" (for every inspection function). -/
theorem c8_rendering (env : Env) (args : List JSVal) :
    renderArgs env args = jsTrim (sepBySpace (args.map (renderOne env)))
      ∧ renderArgs env [.str "hello"] = "hello" :=
  ⟨renderArgs_eq_sep env args, rfl⟩

/-- C9 counterexample: the claim says a logger constructed without a
memory sink has no history sequence for any type, but with
`{types: ["log"], log: {emit: true}}` construction succeeds and
`this.logs` has an (empty) entry for "log". -/
theorem c9_logs_entry_counterexample :
    (construct c9Cfg freshConsole).1 = .ok ()
      ∧ ((construct c9Cfg freshConsole).2.2).lookup "log" = some [] :=
  ⟨rfl, rfl⟩

/-- C9 (amended): every successful construction creates an entry,
initialized to the empty sequence, in the `logs` mapping for every
selected type, whether or not the memory sink is configured. -/
theorem c9_logs_entry_amended (cfg : RawConfig) (c0 : Console)
    (hv : validate cfg = .ok ()) (hok : (construct cfg c0).1 = .ok ()) :
    ∀ v ∈ elems cfg.types,
      ((construct cfg c0).2.2).lookup (jsToString v) = some [] := by
  have hc : construct cfg c0 = installLoop cfg.log (elems cfg.types) c0 [] := by
    simp only [construct, hv]
  rw [hc] at hok ⊢
  intro v hv'
  have h1 := installLoop_mem_lookup cfg.log (elems cfg.types) c0 [] hok v hv'
  have h2 := installLoop_values_nil cfg.log (elems cfg.types) c0 []
    (fun _ => Or.inl rfl) (jsToString v)
  rcases h2 with h2 | h2
  · rw [h2] at h1; cases h1
  · exact h2

/-- Witness for C9 (amended): the emit-only configuration creates the
empty "log" entry. -/
theorem c9_logs_entry_amended_witness :
    ((construct c9Cfg freshConsole).2.2).lookup (jsToString (.str "log")) = some [] :=
  c9_logs_entry_amended c9Cfg freshConsole rfl rfl (.str "log")
    (List.mem_singleton.mpr rfl)

/-- C10: when the sink configuration has no (truthy) memory sink, a
wrapper invocation returns the history sequence unchanged, and any
number of invocations starting from the empty sequence leaves it empty,
whatever other sinks are configured. -/
theorem c10_no_memory_frame (env : Env) (logCfg : JSVal) (item : String)
    (orig : OutFn) (lg : List Entry) (d : JSDate) (args : List JSVal)
    (calls : List (JSDate × List JSVal))
    (hmem : truthy (logCfg.get "memory") = false) :
    (wrapperCall env logCfg item orig lg d args).2 = lg
      ∧ runCalls env logCfg item orig [] calls = [] :=
  ⟨wrapperCall_logs_no_memory env logCfg item orig lg d args hmem,
   runCalls_no_memory env logCfg item orig calls [] hmem⟩

/-- Witness for C10: a file+emit configuration, one call and a two-call
run, history stays empty. -/
theorem c10_no_memory_frame_witness :
    (wrapperCall w1Env w10Cfg "log" (.base 1) [] ⟨0, 2020, 0, 1⟩ [.str "a"]).2 = []
      ∧ runCalls w1Env w10Cfg "log" (.base 1) []
          [(⟨0, 2020, 0, 1⟩, [.str "a"]), (⟨1, 2020, 0, 1⟩, [.str "b"])] = [] :=
  c10_no_memory_frame w1Env w10Cfg "log" (.base 1) [] ⟨0, 2020, 0, 1⟩ [.str "a"]
    [(⟨0, 2020, 0, 1⟩, [.str "a"]), (⟨1, 2020, 0, 1⟩, [.str "b"])] rfl

/-- C5 (amended): with the memory sink present, validation fails — with
the descriptive error "Invalid memory history size" — exactly when the
`history` value's JavaScript number coercion is `NaN`; every other
value is accepted, including zero, negative and non-integer numbers
(so the accepted values are not only the integers greater than 0). -/
theorem c5_history_nan_check (h : JSVal) :
    validate ⟨.arr [.str "log"], .obj [("memory", .obj [("history", h)])]⟩
      = if (toNumber h).isNaN then .error "Invalid memory history size" else .ok () := by
  cases hn : (toNumber h).isNaN with
  | true =>
    simp [validate, check, checkFound, hn, truthy, JSVal.get, getField, objKeys,
      elems, isArray, findInvalidType, findInvalidKey, isValidTypeVal, isValidSinkKey,
      Bind.bind, Except.bind]
  | false =>
    simp [validate, check, checkFound, hn, truthy, JSVal.get, getField, objKeys,
      elems, isArray, findInvalidType, findInvalidKey, isValidTypeVal, isValidSinkKey,
      Bind.bind, Except.bind]
